import Mathlib

/-!
Verification of the Novelty Detection Engine (KL divergence × Fisher trace
novelty functional) against its specification.

The embedding follows the source file line by line:
  * `NoveltyConfig`          — the `@dataclass NoveltyConfig`;
  * `log_softmax`, `kl_div_batchmean`, `klAnalyzer`
                             — Step 1 of `NoveltyEngine.compute`
                               (`F.log_softmax`, `F.kl_div(..., log_target=True,
                               reduction="batchmean")` applied to the
                               final-position logits with the scalar `-log V`
                               uniform reference);
  * `containsSub`, `matchesTarget`, `gradSq`, `fisher_trace`
                             — Step 2, the target-layer selection
                               (`any(t in n for t in target_layers)
                               and p.grad is not None`) and the sum of squared
                               gradients;
  * `zeroGrads`, `applyBackward`
                             — `model.zero_grad(set_to_none=True)` and the
                               gradient-accumulator semantics of
                               `loss.backward()` (PyTorch adds the new gradient
                               into any existing accumulator);
  * `NoveltyEngine.compute`  — the whole per-text evaluation, with the model
                               capability (tokenize / forward / backward
                               gradient contribution) abstract, and the model's
                               mutable state (parameter values, gradient
                               accumulators, train/eval flag) passed explicitly;
  * `run_simulation_2d`      — the orchestration loop (per-text evaluation,
                               `is_outlier = res["novelty"] > novelty_threshold`,
                               append to the running log).

Machine floats are modelled as real numbers; fallible steps return `Except`.
-/

namespace NoveltyDetection

/-- The `NoveltyConfig` dataclass: settings for the novelty detection engine. -/
structure NoveltyConfig where
  attention_normalizer : ℝ := 512
  eps : ℝ := 1 / 1000000
  target_layers : List String := ["lm_head"]
  novelty_threshold : ℝ := 1 / 2

/-- One named model parameter: its value tensor and its gradient accumulator
(`None` when `zero_grad(set_to_none=True)` has cleared it or it never received
a gradient). Tensors are flattened to lists of scalars. -/
structure Param where
  name : String
  value : List ℝ
  grad : Option (List ℝ)

/-- The mutable state of the shared model object: its named parameters and its
train/eval mode flag. -/
structure ModelState where
  params : List Param
  training : Bool

/-- The parameter values (name, value) visible to forward/backward computation;
gradient accumulators and the mode flag are not inputs of the network function. -/
def weightsOf (s : ModelState) : List (String × List ℝ) :=
  s.params.map (fun p => (p.name, p.value))

/-- The external model capability: `tokenizer(text)`, the forward pass giving
one logits row per input position, and the gradient each named parameter
receives from `outputs.loss.backward()` (`none` for parameters outside the
loss's computation graph). Both network functions depend on the parameter
values and the token sequence only. -/
structure ModelCap where
  tokenize : String → List ℕ
  logitsAt : List (String × List ℝ) → List ℕ → List (List ℝ)
  gradContrib : List (String × List ℝ) → List ℕ → String → Option (List ℝ)

/-- The per-text result dictionary `{"novelty": ..., "kl": ..., "fisher": ...,
"tokens": ...}`. -/
structure EvalResult where
  novelty : ℝ
  kl : ℝ
  fisher : ℝ
  tokens : ℕ

/-- Errors a per-text evaluation can surface: `indexError` is the library
error raised by the final-position slice `logits[:, -1, :]` when the position
dimension is empty; `invalidInputError` is the validation error named by the
specification for zero-token inputs. -/
inductive EngineError where
  | indexError
  | invalidInputError

/-- `F.log_softmax` over one logits row: `x - log (sum of exp)`. -/
noncomputable def log_softmax (xs : List ℝ) : List ℝ :=
  xs.map (fun x => x - Real.log ((xs.map Real.exp).sum))

/-- One pointwise term of `F.kl_div(input, target, log_target=True)`:
`exp(target) * (target - input)`. -/
noncomputable def kl_div_term (i t : ℝ) : ℝ :=
  Real.exp t * (t - i)

/-- `F.kl_div(input, target, log_target=True, reduction="batchmean")`:
the pointwise terms are summed over every element and divided by the batch
size, the size of the first dimension of `input`. -/
noncomputable def kl_div_batchmean (input target : List (List ℝ)) : ℝ :=
  (((input.zip target).map
      (fun r => ((r.1.zip r.2).map (fun q => kl_div_term q.1 q.2)).sum)).sum) /
    (input.length : ℝ)

/-- Step 1 of `NoveltyEngine.compute` applied to the final-position logits row
(shape `[1, V]`): `log_p = F.log_softmax(logits)`,
`log_uniform = -log V`, `kl = F.kl_div(log_uniform.expand_as(log_p), log_p,
log_target=True, reduction="batchmean")`. -/
noncomputable def klAnalyzer (lastLogits : List ℝ) : ℝ :=
  kl_div_batchmean
    [List.replicate (log_softmax lastLogits).length
      (-Real.log (lastLogits.length : ℝ))]
    [log_softmax lastLogits]

/-- The Python substring test `t in s` on character lists: `t` occurs
contiguously in `s`. -/
def containsSub : List Char → List Char → Bool
  | [], t => t.isPrefixOf []
  | c :: s, t => t.isPrefixOf (c :: s) || containsSub s t

/-- The selection predicate `any(t in n for t in target_layers)` of the
Fisher-trace sum. -/
def matchesTarget (targets : List String) (n : String) : Bool :=
  targets.any (fun t => containsSub n.data t.data)

/-- `p.grad.pow(2).sum().item()`: the sum of squared entries of a gradient. -/
def gradSq (g : List ℝ) : ℝ :=
  (g.map (fun x => x ^ 2)).sum

/-- The Fisher trace sum of `NoveltyEngine.compute`:
`sum(p.grad.pow(2).sum().item() for n, p in model.named_parameters()
  if any(t in n for t in target_layers) and p.grad is not None)`. -/
noncomputable def fisher_trace (params : List Param) (targets : List String) : ℝ :=
  ((params.filter
      (fun p => matchesTarget targets p.name && p.grad.isSome)).map
    (fun p => match p.grad with
      | some g => gradSq g
      | none => 0)).sum

/-- `model.zero_grad(set_to_none=True)`: every gradient accumulator is set to
`None`. -/
def zeroGrads (ps : List Param) : List Param :=
  ps.map (fun p => { p with grad := none })

/-- Elementwise addition of two gradient tensors. -/
def addVec (a b : List ℝ) : List ℝ :=
  (a.zip b).map (fun x => x.1 + x.2)

/-- The effect of `outputs.loss.backward()` on one parameter: its gradient
contribution is added into its accumulator (set when the accumulator is
`None`, accumulated otherwise; parameters outside the computation graph are
untouched). -/
def backwardStep (contrib : String → Option (List ℝ)) (p : Param) : Param :=
  match p.grad, contrib p.name with
  | none, c => { p with grad := c }
  | some _, none => p
  | some a, some g => { p with grad := some (addVec a g) }

/-- `outputs.loss.backward()` over the whole parameter collection. -/
def applyBackward (contrib : String → Option (List ℝ)) (ps : List Param) :
    List Param :=
  ps.map (backwardStep contrib)

/-- `NoveltyEngine.compute(text, model, tokenizer)`: tokenize, Step 1 (KL
divergence at the final position), Step 2 (`model.eval()`, forward with
labels, `zero_grad`, `backward`, Fisher trace, `zero_grad`), Step 3 (the
novelty score). The final-position slice `logits[:, -1, :]` raises a library
index error when the forward pass produced no positions. -/
noncomputable def NoveltyEngine.compute (cfg : NoveltyConfig) (m : ModelCap) (text : String)
    (s : ModelState) : Except EngineError (EvalResult × ModelState) :=
  let inputs := m.tokenize text
  match (m.logitsAt (weightsOf s) inputs).getLast? with
  | none => Except.error EngineError.indexError
  | some lastLogits =>
    let kl := klAnalyzer lastLogits
    let s1 : ModelState := { s with training := false }
    let cleared := zeroGrads s1.params
    let afterBackward := applyBackward (m.gradContrib (weightsOf s) inputs) cleared
    let fisher := fisher_trace afterBackward cfg.target_layers
    let s2 : ModelState := { s1 with params := zeroGrads afterBackward }
    let token_count := inputs.length
    let novelty :=
      (kl * fisher) /
        (((token_count : ℝ) / cfg.attention_normalizer) + cfg.eps)
    Except.ok
      ({ novelty := novelty, kl := kl, fisher := fisher, tokens := token_count },
        s2)

/-- The pure combination function of Step 3:
`(kl * fisher) / ((token_count / attention_normalizer) + eps)`. -/
noncomputable def novelty_score (kl fisher : ℝ) (token_count : ℕ) (normalizer eps : ℝ) : ℝ :=
  (kl * fisher) / (((token_count : ℝ) / normalizer) + eps)

/-- The classification `is_outlier = res["novelty"] > config.novelty_threshold`
of the orchestration loop. -/
def is_outlier (novelty threshold : ℝ) : Prop :=
  novelty > threshold

/-- One row of the orchestration loop's `data_log`. -/
structure LogEntry where
  text : String
  res : EvalResult
  is_alert : Prop

/-- The orchestration loop of `run_simulation_2d`: evaluate each text in
order, classify it against the threshold, append to the running log; an
exception raised by a per-text evaluation propagates (the loop performs no
skipping and no recovery). -/
noncomputable def run_simulation_2d (cfg : NoveltyConfig) (m : ModelCap) :
    List String → ModelState → List LogEntry →
      Except EngineError (List LogEntry)
  | [], _, acc => Except.ok acc
  | t :: ts, s, acc =>
    match NoveltyEngine.compute cfg m t s with
    | Except.error e => Except.error e
    | Except.ok (r, s2) =>
      run_simulation_2d cfg m ts s2
        (acc ++ [{ text := t, res := r,
                   is_alert := is_outlier r.novelty cfg.novelty_threshold }])

/-- N consecutive per-text evaluations threaded through the model state (a
failed evaluation leaves the state untouched). -/
noncomputable def evalChain (cfg : NoveltyConfig) (m : ModelCap) :
    List String → ModelState → ModelState
  | [], s => s
  | t :: ts, s =>
    match NoveltyEngine.compute cfg m t s with
    | Except.error _ => evalChain cfg m ts s
    | Except.ok (_, s2) => evalChain cfg m ts s2

/-- A concrete mock model for witnesses: every text tokenizes to one token,
the forward pass emits the single-entry logits row `[5]` at each position, and
the backward pass sends the gradient `[2]` to the parameter
`lm_head.weight` only. -/
noncomputable def mockOne : ModelCap where
  tokenize := fun _ => [7]
  logitsAt := fun _ ids => ids.map (fun _ => [5])
  gradContrib := fun _ _ n => if n = "lm_head.weight" then some [2] else none

/-- A concrete initial model state for witnesses: one parameter, a stale
gradient left in its accumulator, training mode on. -/
noncomputable def stateW : ModelState where
  params := [{ name := "lm_head.weight", value := [1], grad := some [9] }]
  training := true

/-- The result `mockOne` produces on any text from `stateW`. -/
noncomputable def resW : EvalResult where
  novelty := 0
  kl := 0
  fisher := 4
  tokens := 1

/-- The model state after one evaluation of `mockOne` from `stateW`. -/
noncomputable def stateAfterW : ModelState where
  params := [{ name := "lm_head.weight", value := [1], grad := none }]
  training := false

lemma compute_mockOne :
    NoveltyEngine.compute {} mockOne "x" stateW = Except.ok (resW, stateAfterW) := by
  simp only [NoveltyEngine.compute, mockOne, stateW, weightsOf, klAnalyzer,
    kl_div_batchmean, kl_div_term, log_softmax, zeroGrads, applyBackward,
    backwardStep, fisher_trace, gradSq, matchesTarget, containsSub, resW,
    stateAfterW,
    List.map_cons, List.map_nil, List.getLast?]
  norm_num [Real.log_exp, Real.exp_zero, matchesTarget, containsSub]

/-- A mock model whose tokenizer yields zero tokens for every text and whose
forward pass emits one logits row per input position. -/
noncomputable def mockEmpty : ModelCap where
  tokenize := fun _ => []
  logitsAt := fun _ ids => ids.map (fun _ => [0])
  gradContrib := fun _ _ _ => none

lemma nameValue_zeroGrads (ps : List Param) :
    (zeroGrads ps).map (fun p => (p.name, p.value)) =
      ps.map (fun p => (p.name, p.value)) := by
  induction ps with
  | nil => rfl
  | cons p ps ih =>
    simp only [zeroGrads, List.map_cons] at ih ⊢
    rw [ih]

lemma backwardStep_name (c : String → Option (List ℝ)) (p : Param) :
    (backwardStep c p).name = p.name := by
  cases hg : p.grad <;> cases hc : c p.name <;> simp [backwardStep, hg, hc]

lemma backwardStep_value (c : String → Option (List ℝ)) (p : Param) :
    (backwardStep c p).value = p.value := by
  cases hg : p.grad <;> cases hc : c p.name <;> simp [backwardStep, hg, hc]

lemma nameValue_applyBackward (c : String → Option (List ℝ)) (ps : List Param) :
    (applyBackward c ps).map (fun p => (p.name, p.value)) =
      ps.map (fun p => (p.name, p.value)) := by
  simp only [applyBackward, List.map_map]
  refine List.map_congr_left (fun a _ => ?_)
  simp [Function.comp, backwardStep_name, backwardStep_value]

lemma grad_zeroGrads (ps : List Param) : ∀ p ∈ zeroGrads ps, p.grad = none := by
  intro p hp
  simp only [zeroGrads, List.mem_map] at hp
  obtain ⟨q, -, rfl⟩ := hp
  rfl

/-- A successful per-text evaluation leaves the parameter names and values of
the model state unchanged. -/
lemma compute_preserves_weights (cfg : NoveltyConfig) (m : ModelCap)
    (text : String) (s : ModelState) (r : EvalResult) (s2 : ModelState)
    (hok : NoveltyEngine.compute cfg m text s = Except.ok (r, s2)) :
    weightsOf s2 = weightsOf s := by
  simp only [NoveltyEngine.compute] at hok
  split at hok
  · exact absurd hok (by simp)
  · simp only [Except.ok.injEq, Prod.mk.injEq] at hok
    obtain ⟨-, h2⟩ := hok
    subst h2
    simp [weightsOf, nameValue_zeroGrads, nameValue_applyBackward]

lemma names_eq_of_weights_eq {s1 sB : ModelState}
    (hw : weightsOf s1 = weightsOf sB) :
    s1.params.map Param.name = sB.params.map Param.name := by
  have h := congrArg (List.map Prod.fst) hw
  simpa [weightsOf, List.map_map, Function.comp] using h

/-- The Fisher trace measured right after `zero_grad` and `backward` depends
only on the parameter names and the backward pass's gradient contributions. -/
lemma fisher_trace_fresh (c : String → Option (List ℝ)) (ps : List Param)
    (ts : List String) :
    fisher_trace (applyBackward c (zeroGrads ps)) ts =
      (((ps.map Param.name).filter
          (fun n => matchesTarget ts n && (c n).isSome)).map
        (fun n => match c n with
          | some g => gradSq g
          | none => 0)).sum := by
  induction ps with
  | nil => rfl
  | cons p ps ih =>
    have hz : applyBackward c (zeroGrads (p :: ps)) =
        { p with grad := c p.name } :: applyBackward c (zeroGrads ps) := rfl
    rw [hz]
    by_cases h : (matchesTarget ts p.name && Option.isSome (c p.name)) = true
    · simp [fisher_trace, List.filter_cons, h, ← ih]
    · simp [fisher_trace, List.filter_cons, h, ← ih]

/-- The evaluation result (not the state) produced by a per-text evaluation is
a function of the parameter names and values alone: gradient accumulators and
the mode flag of the incoming model state never influence it. -/
lemma compute_result_of_weights (cfg : NoveltyConfig) (m : ModelCap)
    (text : String) (s1 sB : ModelState) (hw : weightsOf s1 = weightsOf sB) :
    (NoveltyEngine.compute cfg m text s1).map Prod.fst =
      (NoveltyEngine.compute cfg m text sB).map Prod.fst := by
  have hn := names_eq_of_weights_eq hw
  simp only [NoveltyEngine.compute, hw]
  cases h : (m.logitsAt (weightsOf sB) (m.tokenize text)).getLast? with
  | none => simp [Except.map]
  | some lastLogits => simp [Except.map, fisher_trace_fresh, hn]

lemma evalChain_preserves_weights (cfg : NoveltyConfig) (m : ModelCap)
    (texts : List String) (s : ModelState) :
    weightsOf (evalChain cfg m texts s) = weightsOf s := by
  induction texts generalizing s with
  | nil => rfl
  | cons t ts ih =>
    simp only [evalChain]
    cases h : NoveltyEngine.compute cfg m t s with
    | error e => exact ih s
    | ok v =>
      obtain ⟨r, s2⟩ := v
      exact (ih s2).trans (compute_preserves_weights cfg m t s r s2 h)

/-- Claim C1: for every input text the per-text evaluation accepts, the
returned novelty equals exactly
`(kl_divergence * fisher_trace) / ((token_count / attention_normalizer) + eps)`
where `kl_divergence`, `fisher_trace` and `token_count` are the values
returned in the same result and `attention_normalizer` and `eps` come from the
engine's configuration. -/
theorem C1_novelty_formula (cfg : NoveltyConfig) (m : ModelCap) (text : String)
    (s : ModelState) (r : EvalResult) (s2 : ModelState)
    (hok : NoveltyEngine.compute cfg m text s = Except.ok (r, s2)) :
    r.novelty =
      (r.kl * r.fisher) /
        (((r.tokens : ℝ) / cfg.attention_normalizer) + cfg.eps) := by
  simp only [NoveltyEngine.compute] at hok
  split at hok
  · exact absurd hok (by simp)
  · simp only [Except.ok.injEq, Prod.mk.injEq] at hok
    obtain ⟨h1, -⟩ := hok
    subst h1
    rfl

/-- Claim C1 witness: the formula instantiated on the mock model. -/
theorem C1_novelty_formula_witness :
    resW.novelty =
      (resW.kl * resW.fisher) /
        (((resW.tokens : ℝ) / NoveltyConfig.attention_normalizer {}) +
          NoveltyConfig.eps {}) :=
  C1_novelty_formula {} mockOne "x" stateW resW stateAfterW compute_mockOne

/-- Claim C5 counterexample: with `kl_divergence = 1` and `fisher_trace = 0`
(both non-negative), token count raised from 1 to 2, normalizer 512 and
`eps = 1/1000000` both positive, the novelty does not strictly decrease: it is
0 at both token counts, so the claimed strict length penalty fails at a zero
numerator. -/
theorem C5_counterexample :
    ¬ (novelty_score 1 0 2 512 (1 / 1000000) <
        novelty_score 1 0 1 512 (1 / 1000000)) := by
  norm_num [novelty_score]

/-- Claim C5 (amended): the combination function is monotone in
`kl_divergence` and in `fisher_trace` (holding the other fixed and
non-negative); for fixed `kl_divergence > 0` and `fisher_trace > 0`,
increasing the token count strictly decreases the novelty; for merely
non-negative `kl_divergence` and `fisher_trace` the novelty is non-increasing
in the token count (when the numerator is zero the score is 0 at every token
count, so the decrease is not strict there). -/
theorem C5_monotonicity (kl kl2 fisher fisher2 : ℝ) (tc tc2 : ℕ)
    (nz e : ℝ) (hnz : 0 < nz) (he : 0 < e) :
    (0 ≤ fisher → kl ≤ kl2 →
      novelty_score kl fisher tc nz e ≤ novelty_score kl2 fisher tc nz e) ∧
    (0 ≤ kl → fisher ≤ fisher2 →
      novelty_score kl fisher tc nz e ≤ novelty_score kl fisher2 tc nz e) ∧
    (0 < kl → 0 < fisher → tc < tc2 →
      novelty_score kl fisher tc2 nz e < novelty_score kl fisher tc nz e) ∧
    (0 ≤ kl → 0 ≤ fisher → tc ≤ tc2 →
      novelty_score kl fisher tc2 nz e ≤ novelty_score kl fisher tc nz e) := by
  have hden : ∀ n : ℕ, 0 < ((n : ℝ) / nz) + e := by
    intro n
    have : 0 ≤ (n : ℝ) / nz := div_nonneg (Nat.cast_nonneg n) hnz.le
    linarith
  have hmono : ∀ n n2 : ℕ, n ≤ n2 →
      ((n : ℝ) / nz) + e ≤ ((n2 : ℝ) / nz) + e := by
    intro n n2 h
    have h2 : (n : ℝ) ≤ (n2 : ℝ) := Nat.cast_le.mpr h
    have h3 : (n : ℝ) / nz ≤ (n2 : ℝ) / nz := by gcongr
    linarith
  refine ⟨?_, ?_, ?_, ?_⟩
  · intro hf hkl
    unfold novelty_score
    gcongr
  · intro hkl hf
    unfold novelty_score
    gcongr
  · intro hkl hf htc
    unfold novelty_score
    have hstrict : ((tc : ℝ) / nz) + e < ((tc2 : ℝ) / nz) + e := by
      have h2 : (tc : ℝ) < (tc2 : ℝ) := Nat.cast_lt.mpr htc
      have h3 : (tc : ℝ) / nz < (tc2 : ℝ) / nz := by gcongr
      linarith
    exact div_lt_div_of_pos_left (mul_pos hkl hf) (hden tc) hstrict
  · intro hkl hf htc
    unfold novelty_score
    have h4 : 0 ≤ kl * fisher := mul_nonneg hkl hf
    have h5 := hden tc
    have h6 := hmono tc tc2 htc
    gcongr

/-- Claim C5 witness for the amended statement: instantiated at `kl = 1 ≤ 2`,
`fisher = 3 ≤ 5`, token counts 1 < 2, normalizer 512, `eps = 1/1000000`. -/
theorem C5_monotonicity_witness :
    ((0 : ℝ) ≤ 3 → (1 : ℝ) ≤ 2 →
      novelty_score 1 3 1 512 (1 / 1000000) ≤
        novelty_score 2 3 1 512 (1 / 1000000)) ∧
    ((0 : ℝ) ≤ 1 → (3 : ℝ) ≤ 5 →
      novelty_score 1 3 1 512 (1 / 1000000) ≤
        novelty_score 1 5 1 512 (1 / 1000000)) ∧
    ((0 : ℝ) < 1 → (0 : ℝ) < 3 → 1 < 2 →
      novelty_score 1 3 2 512 (1 / 1000000) <
        novelty_score 1 3 1 512 (1 / 1000000)) ∧
    ((0 : ℝ) ≤ 1 → (0 : ℝ) ≤ 3 → 1 ≤ 2 →
      novelty_score 1 3 2 512 (1 / 1000000) ≤
        novelty_score 1 3 1 512 (1 / 1000000)) :=
  C5_monotonicity 1 2 3 5 1 2 512 (1 / 1000000) (by norm_num) (by norm_num)

/-- Claim C6: the orchestration loop classifies a result as an alert exactly
when its novelty strictly exceeds the configured threshold: the alert flag of
each appended log entry is `is_outlier res.novelty novelty_threshold`, alert
holds iff `threshold < novelty`, and with threshold 1/2 a novelty of 0.51 is
an alert, 0.49 is not, and a novelty exactly equal to the threshold is not. -/
theorem C6_threshold_classification :
    (∀ cfg : NoveltyConfig, ∀ m : ModelCap, ∀ t : String, ∀ ts : List String,
      ∀ s : ModelState, ∀ acc : List LogEntry,
      run_simulation_2d cfg m (t :: ts) s acc =
        match NoveltyEngine.compute cfg m t s with
        | Except.error e => Except.error e
        | Except.ok (r, s2) =>
          run_simulation_2d cfg m ts s2
            (acc ++ [{ text := t, res := r,
                       is_alert := is_outlier r.novelty cfg.novelty_threshold }])) ∧
    (∀ n t : ℝ, is_outlier n t ↔ t < n) ∧
    is_outlier (51 / 100) (1 / 2) ∧
    ¬ is_outlier (49 / 100) (1 / 2) ∧
    ¬ is_outlier (1 / 2) (1 / 2) := by
  refine ⟨fun cfg m t ts s acc => rfl, fun n t => Iff.rfl, ?_, ?_, ?_⟩
  · show (1 : ℝ) / 2 < 51 / 100
    norm_num
  · show ¬ ((1 : ℝ) / 2 < 49 / 100)
    norm_num
  · show ¬ ((1 : ℝ) / 2 < 1 / 2)
    norm_num

/-- Claim C9: for every evaluation call that returns, the model's parameter
names and values after the call are identical to their values before the call:
the call computes and clears gradients but never writes to parameter values. -/
theorem C9_weight_immutability (cfg : NoveltyConfig) (m : ModelCap)
    (text : String) (s : ModelState) (r : EvalResult) (s2 : ModelState)
    (hok : NoveltyEngine.compute cfg m text s = Except.ok (r, s2)) :
    weightsOf s2 = weightsOf s :=
  compute_preserves_weights cfg m text s r s2 hok

/-- Claim C9 witness: weight immutability on the mock model evaluation. -/
theorem C9_weight_immutability_witness :
    weightsOf stateAfterW = weightsOf stateW :=
  C9_weight_immutability {} mockOne "x" stateW resW stateAfterW compute_mockOne

/-- Claim C10: every completing per-text evaluation switches the shared model
into evaluation mode and never restores the mode it had before the call: the
returned state's training flag is `false`, and when the caller had the model
in training mode this is a caller-visible mode change. -/
theorem C10_eval_mode_leak (cfg : NoveltyConfig) (m : ModelCap)
    (text : String) (s : ModelState) (r : EvalResult) (s2 : ModelState)
    (hok : NoveltyEngine.compute cfg m text s = Except.ok (r, s2)) :
    s2.training = false ∧ (s.training = true → s2.training ≠ s.training) := by
  simp only [NoveltyEngine.compute] at hok
  split at hok
  · exact absurd hok (by simp)
  · simp only [Except.ok.injEq, Prod.mk.injEq] at hok
    obtain ⟨-, h2⟩ := hok
    subst h2
    exact ⟨rfl, fun h => by simp [h]⟩

/-- Claim C10 witness: the mock model starts in training mode and is left in
evaluation mode. -/
theorem C10_eval_mode_leak_witness :
    stateAfterW.training = false ∧
      (stateW.training = true → stateAfterW.training ≠ stateW.training) :=
  C10_eval_mode_leak {} mockOne "x" stateW resW stateAfterW compute_mockOne

/-- Claim C8: gradient state never leaks between invocations. Every gradient
accumulator of the returned state is cleared; the evaluation result is
independent of the gradient accumulators (and mode flag) of the incoming
state, because the accumulators are cleared before the backward pass; hence
evaluating a fixed reference input after any number of prior consecutive
evaluations gives the same result as evaluating it with no prior
evaluations. -/
theorem C8_no_gradient_leakage :
    (∀ cfg : NoveltyConfig, ∀ m : ModelCap, ∀ text : String, ∀ s : ModelState,
      ∀ r : EvalResult, ∀ s2 : ModelState,
      NoveltyEngine.compute cfg m text s = Except.ok (r, s2) →
      ∀ p ∈ s2.params, p.grad = none) ∧
    (∀ cfg : NoveltyConfig, ∀ m : ModelCap, ∀ text : String,
      ∀ s1 sB : ModelState, weightsOf s1 = weightsOf sB →
      (NoveltyEngine.compute cfg m text s1).map Prod.fst =
        (NoveltyEngine.compute cfg m text sB).map Prod.fst) ∧
    (∀ cfg : NoveltyConfig, ∀ m : ModelCap, ∀ ref : String,
      ∀ texts : List String, ∀ s : ModelState,
      (NoveltyEngine.compute cfg m ref (evalChain cfg m texts s)).map Prod.fst =
        (NoveltyEngine.compute cfg m ref s).map Prod.fst) := by
  refine ⟨?_, ?_, ?_⟩
  · intro cfg m text s r s2 hok
    simp only [NoveltyEngine.compute] at hok
    split at hok
    · exact absurd hok (by simp)
    · simp only [Except.ok.injEq, Prod.mk.injEq] at hok
      obtain ⟨-, h2⟩ := hok
      subst h2
      exact grad_zeroGrads _
  · intro cfg m text s1 sB hw
    exact compute_result_of_weights cfg m text s1 sB hw
  · intro cfg m ref texts s
    exact compute_result_of_weights cfg m ref (evalChain cfg m texts s) s
      (evalChain_preserves_weights cfg m texts s)

/-- Claim C8 witness: cleared accumulators after the mock evaluation, and
result independence between the stale-gradient state and the cleared state,
and after a two-text chain. -/
theorem C8_no_gradient_leakage_witness :
    (∀ p ∈ stateAfterW.params, p.grad = none) ∧
    ((NoveltyEngine.compute {} mockOne "x" stateW).map Prod.fst =
      (NoveltyEngine.compute {} mockOne "x" stateAfterW).map Prod.fst) ∧
    ((NoveltyEngine.compute {} mockOne "x"
        (evalChain {} mockOne ["a", "b"] stateW)).map Prod.fst =
      (NoveltyEngine.compute {} mockOne "x" stateW).map Prod.fst) :=
  ⟨C8_no_gradient_leakage.1 {} mockOne "x" stateW resW stateAfterW
      compute_mockOne,
    C8_no_gradient_leakage.2.1 {} mockOne "x" stateW stateAfterW rfl,
    C8_no_gradient_leakage.2.2 {} mockOne "x" ["a", "b"] stateW⟩

/-- Claim C3 counterexample: on a model whose tokenizer yields zero tokens for
the empty text, the per-text evaluation does not raise the specification's
`InvalidInputError`: it fails with the library index error of the
final-position logits slice. -/
theorem C3_counterexample :
    NoveltyEngine.compute {} mockEmpty "" stateW ≠
      Except.error EngineError.invalidInputError := by
  have h : NoveltyEngine.compute {} mockEmpty "" stateW =
      Except.error EngineError.indexError := rfl
  rw [h]
  intro hc
  exact EngineError.noConfusion (Except.error.inj hc)

/-- Claim C3 (amended): the per-text evaluation performs no zero-token
validation and raises no `InvalidInputError`; an input tokenizing to zero
tokens (with the forward pass yielding one logits row per position) fails at
the final-position logits slice with a library index error, and the
orchestration loop propagates any per-text error to the caller immediately
instead of silently skipping the input. -/
theorem C3_empty_input_behavior :
    (∀ cfg : NoveltyConfig, ∀ m : ModelCap, ∀ text : String, ∀ s : ModelState,
      m.tokenize text = [] → m.logitsAt (weightsOf s) [] = [] →
      NoveltyEngine.compute cfg m text s =
        Except.error EngineError.indexError) ∧
    (∀ cfg : NoveltyConfig, ∀ m : ModelCap, ∀ t : String, ∀ ts : List String,
      ∀ s : ModelState, ∀ acc : List LogEntry, ∀ e : EngineError,
      NoveltyEngine.compute cfg m t s = Except.error e →
      run_simulation_2d cfg m (t :: ts) s acc = Except.error e) := by
  constructor
  · intro cfg m text s htok hfwd
    simp [NoveltyEngine.compute, htok, hfwd]
  · intro cfg m t ts s acc e herr
    simp [run_simulation_2d, herr]

/-- Claim C3 witness: the zero-token mock fails with the index error and the
loop surfaces it. -/
theorem C3_empty_input_behavior_witness :
    NoveltyEngine.compute {} mockEmpty "" stateW =
        Except.error EngineError.indexError ∧
      run_simulation_2d {} mockEmpty [""] stateW [] =
        Except.error EngineError.indexError :=
  ⟨C3_empty_input_behavior.1 {} mockEmpty "" stateW rfl rfl,
    C3_empty_input_behavior.2 {} mockEmpty "" [] stateW [] EngineError.indexError
      (C3_empty_input_behavior.1 {} mockEmpty "" stateW rfl rfl)⟩

lemma containsSub_eq_infix (s t : List Char) :
    containsSub s t = true ↔ t <:+: s := by
  induction s with
  | nil =>
    simp [containsSub, List.isPrefixOf_iff_prefix]
  | cons c s ih =>
    simp [containsSub, List.isPrefixOf_iff_prefix, ih, List.infix_cons_iff]

lemma matchesTarget_iff (ts : List String) (n : String) :
    matchesTarget ts n = true ↔ ∃ t ∈ ts, t.data <:+: n.data := by
  simp [matchesTarget, List.any_eq_true, containsSub_eq_infix]

lemma matchesTarget_congr {ts1 ts2 : List String}
    (h : ∀ t, t ∈ ts1 ↔ t ∈ ts2) (n : String) :
    matchesTarget ts1 n = matchesTarget ts2 n := by
  have hb : ∀ b1 b2 : Bool, (b1 = true ↔ b2 = true) → b1 = b2 := by decide
  apply hb
  rw [matchesTarget_iff, matchesTarget_iff]
  constructor
  · rintro ⟨t, ht, hc⟩
    exact ⟨t, (h t).mp ht, hc⟩
  · rintro ⟨t, ht, hc⟩
    exact ⟨t, (h t).mpr ht, hc⟩

lemma fisher_trace_cons (p : Param) (ps : List Param) (ts : List String) :
    fisher_trace (p :: ps) ts =
      (if matchesTarget ts p.name && p.grad.isSome then
        (match p.grad with
          | some g => gradSq g
          | none => 0)
      else 0) + fisher_trace ps ts := by
  by_cases h : (matchesTarget ts p.name && p.grad.isSome) = true <;>
    simp [fisher_trace, List.filter_cons, h]

/-- Claim C7: a parameter contributes to the Fisher trace exactly when its
fully-qualified name contains a configured target-layer entry as a literal
substring — the trace equals the sum, over all parameters whose name matches,
of the squared-gradient sum, with an absent gradient contributing zero and
raising no error; the alert-name match is the literal substring relation; and
the trace is invariant under reordering and duplication of `target_layers`. -/
theorem C7_layer_selection :
    (∀ ts : List String, ∀ n : String,
      matchesTarget ts n = true ↔ ∃ t ∈ ts, t.data <:+: n.data) ∧
    (∀ ps : List Param, ∀ ts : List String,
      fisher_trace ps ts =
        (ps.map (fun p =>
          if matchesTarget ts p.name then
            (match p.grad with
              | some g => gradSq g
              | none => 0)
          else 0)).sum) ∧
    (∀ ps : List Param, ∀ ts1 ts2 : List String,
      (∀ t, t ∈ ts1 ↔ t ∈ ts2) → fisher_trace ps ts1 = fisher_trace ps ts2) ∧
    (∀ ps : List Param, ∀ ts : List String, ∀ n : String, ∀ v : List ℝ,
      fisher_trace (ps ++ [{ name := n, value := v, grad := none }]) ts =
        fisher_trace ps ts) := by
  refine ⟨matchesTarget_iff, ?_, ?_, ?_⟩
  · intro ps ts
    induction ps with
    | nil => rfl
    | cons p ps ih =>
      rw [fisher_trace_cons, List.map_cons, List.sum_cons, ih]
      cases hg : p.grad <;> by_cases hm : matchesTarget ts p.name = true <;>
        simp [hg, hm]
  · intro ps ts1 ts2 h
    unfold fisher_trace
    rw [List.filter_congr (fun p _ => by rw [matchesTarget_congr h])]
  · intro ps ts n v
    simp [fisher_trace, List.filter_append, List.filter_cons]

/-- Claim C7 witness: the `lm_head` target selects `lm_head.weight` as a
literal substring, and the trace is unchanged under reordering and
duplicating the target list. -/
theorem C7_layer_selection_witness :
    (matchesTarget ["lm_head"] "lm_head.weight" = true ↔
      ∃ t ∈ ["lm_head"], t.data <:+: "lm_head.weight".data) ∧
    fisher_trace stateW.params ["lm_head", "xq"] =
      fisher_trace stateW.params ["xq", "lm_head", "lm_head"] :=
  ⟨C7_layer_selection.1 ["lm_head"] "lm_head.weight",
    C7_layer_selection.2.2.1 stateW.params ["lm_head", "xq"]
      ["xq", "lm_head", "lm_head"]
      (by intro t; simp only [List.mem_cons, List.not_mem_nil, or_false]; tauto)⟩

lemma zip_replicate_left {α β γ : Type} (a : α) (l : List β) (f : α × β → γ) :
    ((List.replicate l.length a).zip l).map f = l.map (fun t => f (a, t)) := by
  induction l with
  | nil => rfl
  | cons x l ih => simp [List.replicate_succ, ih]

lemma zip_replicate_right {α β γ : Type} (a : β) (l : List α) (f : α × β → γ) :
    (l.zip (List.replicate l.length a)).map f = l.map (fun t => f (t, a)) := by
  induction l with
  | nil => rfl
  | cons x l ih => simp [List.replicate_succ, ih]

/-- The batch-mean KL of Step 1 over a batch of size one is a plain sum of the
pointwise terms against the scalar uniform log-probability. -/
lemma klAnalyzer_eq (xs : List ℝ) :
    klAnalyzer xs =
      ((log_softmax xs).map
        (fun t => kl_div_term (-Real.log (xs.length : ℝ)) t)).sum := by
  unfold klAnalyzer kl_div_batchmean
  simp only [List.zip_cons_cons, List.zip_nil_right, List.map_cons,
    List.map_nil, List.sum_cons, List.sum_nil, List.length_cons,
    List.length_nil, add_zero]
  rw [zip_replicate_left]
  norm_num

lemma sum_exp_nonneg (xs : List ℝ) : 0 ≤ (xs.map Real.exp).sum := by
  refine List.sum_nonneg ?_
  intro x hx
  simp only [List.mem_map] at hx
  obtain ⟨y, -, rfl⟩ := hx
  exact (Real.exp_pos y).le

lemma sum_exp_pos (xs : List ℝ) (h : xs ≠ []) : 0 < (xs.map Real.exp).sum := by
  cases xs with
  | nil => exact absurd rfl h
  | cons x xs =>
    simp only [List.map_cons, List.sum_cons]
    have := sum_exp_nonneg xs
    have := Real.exp_pos x
    linarith

lemma sum_exp_log_softmax (xs : List ℝ) (h : xs ≠ []) :
    ((log_softmax xs).map Real.exp).sum = 1 := by
  have hZ : 0 < (xs.map Real.exp).sum := sum_exp_pos xs h
  unfold log_softmax
  rw [List.map_map]
  have hfun : (Real.exp ∘ fun x => x - Real.log ((xs.map Real.exp).sum)) =
      fun x => Real.exp x * ((xs.map Real.exp).sum)⁻¹ := by
    funext x
    simp [Function.comp, Real.exp_sub, Real.exp_log hZ, div_eq_mul_inv]
  rw [hfun, List.sum_map_mul_right, mul_inv_cancel₀ hZ.ne']

lemma sum_map_neg (P : List ℝ) (g : ℝ → ℝ) :
    (P.map (fun t => -(g t))).sum = -((P.map g).sum) := by
  induction P with
  | nil => simp
  | cons x P ih => simp [ih]; ring

lemma sum_map_const_sub (P : List ℝ) (c : ℝ) (g : ℝ → ℝ) :
    (P.map (fun t => c - g t)).sum = (P.length : ℝ) * c - (P.map g).sum := by
  induction P with
  | nil => simp
  | cons x P ih =>
    simp only [List.map_cons, List.sum_cons, List.length_cons, ih]
    push_cast
    ring

/-- Gibbs' inequality for a list of log-probabilities summing (in probability
space) to one, measured against the scalar uniform log-probability of a
`V`-point space: the batchless KL sum is non-negative. -/
lemma gibbs_list (P : List ℝ) (V : ℝ) (hV : 0 < V) (hlen : (P.length : ℝ) = V)
    (hsum : (P.map Real.exp).sum = 1) :
    0 ≤ (P.map (fun t => kl_div_term (-Real.log V) t)).sum := by
  have key : ∀ t ∈ P, Real.exp t * (-Real.log V - t) ≤ 1 / V - Real.exp t := by
    intro t ht
    have h1 : Real.log (1 / V / Real.exp t) ≤ 1 / V / Real.exp t - 1 :=
      Real.log_le_sub_one_of_pos (by positivity)
    have h2 : Real.log (1 / V / Real.exp t) = -Real.log V - t := by
      rw [Real.log_div (by positivity) (Real.exp_ne_zero t), Real.log_exp,
        one_div, Real.log_inv]
    rw [h2] at h1
    have h3 := mul_le_mul_of_nonneg_left h1 (Real.exp_pos t).le
    have h4 : Real.exp t * (1 / V / Real.exp t - 1) = 1 / V - Real.exp t := by
      field_simp
      ring
    linarith
  have hle := List.sum_le_sum key
  have hconst := sum_map_const_sub P (1 / V) Real.exp
  rw [hconst, hlen, hsum] at hle
  have hVV : V * (1 / V) = 1 := by field_simp
  rw [hVV] at hle
  have hmap : P.map (fun t => kl_div_term (-Real.log V) t) =
      P.map (fun t => -(Real.exp t * (-Real.log V - t))) :=
    List.map_congr_left (fun t _ => by unfold kl_div_term; ring)
  rw [hmap, sum_map_neg]
  linarith

/-- The KL divergence of Step 1 is non-negative for every logits row. -/
lemma klAnalyzer_nonneg (xs : List ℝ) : 0 ≤ klAnalyzer xs := by
  rcases eq_or_ne xs [] with rfl | hne
  · simp [klAnalyzer_eq, log_softmax]
  · rw [klAnalyzer_eq]
    have hV : 0 < (xs.length : ℝ) := by
      have := List.length_pos.mpr hne
      exact_mod_cast this
    refine gibbs_list (log_softmax xs) (xs.length : ℝ) hV ?_ ?_
    · simp [log_softmax]
    · exact sum_exp_log_softmax xs hne

lemma gradSq_nonneg (g : List ℝ) : 0 ≤ gradSq g := by
  refine List.sum_nonneg ?_
  intro x hx
  simp only [List.mem_map] at hx
  obtain ⟨y, -, rfl⟩ := hx
  exact sq_nonneg y

lemma fisher_trace_nonneg (ps : List Param) (ts : List String) :
    0 ≤ fisher_trace ps ts := by
  refine List.sum_nonneg ?_
  intro x hx
  simp only [List.mem_map] at hx
  obtain ⟨p, -, rfl⟩ := hx
  cases hg : p.grad with
  | none => simp
  | some g => simpa [hg] using gradSq_nonneg g

/-- Claim C4: every result of a successful per-text evaluation has
`kl_divergence ≥ 0`, `fisher_trace ≥ 0` and `novelty ≥ 0`, and with
`eps > 0` and a positive normalizer the denominator
`(token_count / attention_normalizer) + eps` is bounded below by `eps`, so no
division by zero occurs. -/
theorem C4_nonnegativity (cfg : NoveltyConfig) (m : ModelCap) (text : String)
    (s : ModelState) (r : EvalResult) (s2 : ModelState)
    (hn : 0 < cfg.attention_normalizer) (he : 0 < cfg.eps)
    (hok : NoveltyEngine.compute cfg m text s = Except.ok (r, s2)) :
    0 ≤ r.kl ∧ 0 ≤ r.fisher ∧ 0 ≤ r.novelty ∧
      cfg.eps ≤ ((r.tokens : ℝ) / cfg.attention_normalizer) + cfg.eps := by
  simp only [NoveltyEngine.compute] at hok
  split at hok
  · exact absurd hok (by simp)
  · simp only [Except.ok.injEq, Prod.mk.injEq] at hok
    obtain ⟨h1, -⟩ := hok
    subst h1
    have hdiv : 0 ≤ ((m.tokenize text).length : ℝ) / cfg.attention_normalizer :=
      div_nonneg (Nat.cast_nonneg _) hn.le
    refine ⟨klAnalyzer_nonneg _, fisher_trace_nonneg _ _, ?_, ?_⟩
    · exact div_nonneg (mul_nonneg (klAnalyzer_nonneg _) (fisher_trace_nonneg _ _))
        (by linarith)
    · simpa using hdiv

/-- Claim C4 witness: non-negativity on the mock evaluation with the default
configuration. -/
theorem C4_nonnegativity_witness :
    0 ≤ resW.kl ∧ 0 ≤ resW.fisher ∧ 0 ≤ resW.novelty ∧
      NoveltyConfig.eps {} ≤
        ((resW.tokens : ℝ) / NoveltyConfig.attention_normalizer {}) +
          NoveltyConfig.eps {} :=
  C4_nonnegativity {} mockOne "x" stateW resW stateAfterW
    (by norm_num [NoveltyConfig.attention_normalizer])
    (by norm_num [NoveltyConfig.eps]) compute_mockOne

/-- The softmax probability distribution of a logits row (the probabilities
whose logarithms Step 1 manipulates). -/
noncomputable def softmax (xs : List ℝ) : List ℝ :=
  xs.map (fun x => Real.exp x / (xs.map Real.exp).sum)

/-- The textbook Kullback–Leibler divergence `KL(p ‖ q)` of the distribution
`p` from the distribution `q`, paired pointwise. -/
noncomputable def klDivergence (p q : List ℝ) : ℝ :=
  ((p.zip q).map (fun x => x.1 * Real.log (x.1 / x.2))).sum

/-- The divergence in the direction the specification sentence states,
KL(reference‖model): the library call with the reference distribution in the
target position and the model's log-probabilities in the input position,
otherwise identical to Step 1 (log-space arguments, batch-mean reduction). -/
noncomputable def klAnalyzerRefFirst (lastLogits : List ℝ) : ℝ :=
  kl_div_batchmean [log_softmax lastLogits]
    [List.replicate (log_softmax lastLogits).length
      (-Real.log (lastLogits.length : ℝ))]

lemma klAnalyzerRefFirst_eq (xs : List ℝ) :
    klAnalyzerRefFirst xs =
      ((log_softmax xs).map
        (fun t => kl_div_term t (-Real.log (xs.length : ℝ)))).sum := by
  unfold klAnalyzerRefFirst kl_div_batchmean
  simp only [List.zip_cons_cons, List.zip_nil_right, List.map_cons,
    List.map_nil, List.sum_cons, List.sum_nil, List.length_cons,
    List.length_nil, add_zero]
  rw [zip_replicate_right]
  norm_num

/-- Claim C2 counterexample: on the two-entry logits row `[0, log 3]` (model
distribution `(1/4, 3/4)`, uniform reference `(1/2, 1/2)`), the analyzer's
divergence differs from the divergence taken in the claimed direction
KL(reference‖model): the code's value is `(3/4)·log 3 - log 2` while the
claimed direction gives `log 2 - (1/2)·log 3`, and these are unequal. -/
theorem C2_counterexample :
    klAnalyzer [0, Real.log 3] ≠ klAnalyzerRefFirst [0, Real.log 3] := by
  have h30 : (0:ℝ) < 3 := by norm_num
  have h40 : (0:ℝ) < 4 := by norm_num
  have hlt : 5 * Real.log 3 < 8 * Real.log 2 := by
    have h1 : Real.log ((3:ℝ) ^ (5:ℕ)) < Real.log ((2:ℝ) ^ (8:ℕ)) :=
      Real.log_lt_log (by positivity) (by norm_num)
    rw [Real.log_pow, Real.log_pow] at h1
    push_cast at h1
    linarith
  have l4 : Real.log 4 = 2 * Real.log 2 := by
    rw [show (4:ℝ) = 2 ^ (2:ℕ) by norm_num, Real.log_pow]
    push_cast
    ring
  have hlen2 : (([0, Real.log 3] : List ℝ).length : ℝ) = 2 := by norm_num
  have hsum : Real.exp 0 + (Real.exp (Real.log 3) + 0) = 4 := by
    rw [Real.exp_zero, Real.exp_log h30]
    norm_num
  have e1 : Real.exp (0 - Real.log 4) = 1 / 4 := by
    rw [Real.exp_sub, Real.exp_zero, Real.exp_log h40]
  have e2 : Real.exp (Real.log 3 - Real.log 4) = 3 / 4 := by
    rw [Real.exp_sub, Real.exp_log h30, Real.exp_log h40]
  have e3 : Real.exp (-Real.log 2) = 1 / 2 := by
    rw [Real.exp_neg, Real.exp_log (by norm_num : (0:ℝ) < 2)]
    norm_num
  rw [klAnalyzer_eq, klAnalyzerRefFirst_eq, hlen2]
  simp only [log_softmax, List.map_cons, List.map_nil, List.sum_cons,
    List.sum_nil, kl_div_term]
  rw [hsum, e1, e2, e3]
  intro heq
  rw [l4] at heq
  ring_nf at heq
  linarith

/-- Claim C2 (amended): the Distribution Analyzer's divergence is
KL(model‖reference) — the KL divergence of the model's final-position
next-token distribution against the uniform reference taken in the direction
model-against-reference — computed with both sides log-transformed
(log-softmax for the model, the scalar `-log V` for the uniform) and a
batch-mean reduction over a batch of size 1. -/
theorem C2_kl_direction (xs : List ℝ) (hne : xs ≠ []) :
    klAnalyzer xs =
      klDivergence (softmax xs)
        (List.replicate xs.length (1 / (xs.length : ℝ))) := by
  have hZ : 0 < (xs.map Real.exp).sum := sum_exp_pos xs hne
  have hV : 0 < (xs.length : ℝ) := by
    exact_mod_cast List.length_pos.mpr hne
  rw [klAnalyzer_eq]
  unfold klDivergence softmax
  have hlen : xs.length =
      (xs.map (fun x => Real.exp x / (xs.map Real.exp).sum)).length := by simp
  rw [hlen, zip_replicate_right, ← hlen]
  unfold log_softmax
  rw [List.map_map, List.map_map]
  refine congrArg List.sum (List.map_congr_left (fun x _ => ?_))
  simp only [Function.comp, kl_div_term]
  have hx : 0 < Real.exp x / (xs.map Real.exp).sum := by positivity
  have he : Real.exp (x - Real.log ((xs.map Real.exp).sum)) =
      Real.exp x / (xs.map Real.exp).sum := by
    rw [Real.exp_sub, Real.exp_log hZ]
  have hlog : Real.log (Real.exp x / (xs.map Real.exp).sum / (1 / (xs.length : ℝ))) =
      (x - Real.log ((xs.map Real.exp).sum)) + Real.log (xs.length : ℝ) := by
    rw [one_div, div_inv_eq_mul,
      Real.log_mul (ne_of_gt hx) hV.ne',
      Real.log_div (Real.exp_ne_zero x) hZ.ne', Real.log_exp]
  rw [he, hlog]
  ring

/-- Claim C2 witness for the amended direction: the refinement instantiated on
the one-entry logits row `[0]`. -/
theorem C2_kl_direction_witness :
    klAnalyzer [(0:ℝ)] =
      klDivergence (softmax [(0:ℝ)])
        (List.replicate ([(0:ℝ)] : List ℝ).length
          (1 / ((([(0:ℝ)] : List ℝ).length : ℕ) : ℝ))) :=
  C2_kl_direction [(0:ℝ)] (by simp)

end NoveltyDetection
